import Mathlib

/-!
Shallow embedding of `elfo-dumper`'s `serializer.rs`: the chunked, line-delimited
dump serializer (`Serializer`, `Report`, `CompactDump`, `LimitedWrite`) and the
per-call parameters it consumes.  Byte buffers are modelled as the sequence of
write calls that filled them (each write a valid UTF-8 chunk, as `serde_json`
produces); byte counting uses UTF-8 byte sizes of those chunks.
-/

set_option maxRecDepth 8000

namespace ElfoDumper

/-- Log severity, modelling `tracing::Level` as the dumper uses it. -/
inductive Level where
  | trace | debug | info | warn | error
deriving DecidableEq, Repr

/-- Modelled from the spec: the overflow policy variants of `DumpParams.on_overflow`
(`config.rs` is not among the sources; the spec names the two policies Skip and
Truncate). -/
inductive OnOverflow where
  | Skip | Truncate
deriving DecidableEq, Repr

/-- Modelled from the spec: the per-call `DumpParams` (`rule_set.rs` is not among the
sources).  `max_size` is the positive byte budget for one encoded record, `on_overflow`
the overflow policy, and `on_failure_log` / `on_overflow_log` the optional severities
where `none` suppresses statistic recording for that event class (`into_level` is the
identity on this model).  The defaults follow what the tests in `serializer.rs` expect
from `DumpParams::default()`: a permissive budget, `Skip`, and `warn` severities. -/
structure DumpParams where
  max_size : Nat := 64 * 1024
  on_overflow : OnOverflow := OnOverflow.Skip
  on_failure_log : Option Level := some Level.warn
  on_overflow_log : Option Level := some Level.warn
deriving DecidableEq, Repr

/-- `MessageKind` of a dump: `Regular`, or `Request`/`Response` carrying a
correlation id. -/
inductive MessageKind where
  | Regular
  | Request (correlation_id : Nat)
  | Response (correlation_id : Nat)
deriving DecidableEq, Repr

/-- The serde encoding of one message value, abstracted as the sequence of write calls
it issues (each a valid UTF-8 chunk, as `serde_json` emits) and, when the value is
structurally unserializable, the error its encoding ends with after those chunks. -/
structure Message where
  chunks : List String
  err : Option String := none
deriving DecidableEq, Repr

/-- One dump record (`Dump` plus its `meta`, flattened: `group`/`key` live in
`dump.meta` in the source; `message_name` is modelled as the contiguous string the
source produces via `name_buffer`). -/
structure Dump where
  timestamp : Nat
  group : String
  key : String
  sequence_no : Nat
  trace_id : Nat
  thread_id : Nat
  direction : String
  message_name : String
  message_protocol : String
  message_kind : MessageKind
  message : Message
deriving DecidableEq, Repr

/-- `FailedDumpInfo`: severity, the stored error detail, cumulative count. -/
structure FailedDumpInfo where
  level : Level
  error : String
  count : Nat
deriving DecidableEq, Repr

/-- `OverflowDumpInfo`: severity and cumulative count. -/
structure OverflowDumpInfo where
  level : Level
  count : Nat
deriving DecidableEq, Repr

/-- `Report`: appended count plus the failure and overflow maps (the `FxHashMap`s are
modelled as association lists with unique keys). -/
structure Report where
  appended : Nat := 0
  failed : List ((String × String) × FailedDumpInfo) := []
  overflow : List ((String × String × Bool) × OverflowDumpInfo) := []
deriving DecidableEq, Repr

/-- First-match lookup in an association list (the map read operation). -/
def lookupKey {K V : Type} [DecidableEq K] : List (K × V) → K → Option V
  | [], _ => none
  | q :: rest, k => if q.1 = k then some q.2 else lookupKey rest k

/-- The `entry(k).and_modify(f).or_insert(ins)` pattern of the source on the
association-list model: modify the entry when the key is present, append a fresh
entry otherwise. -/
def entryUpdate {K V : Type} [DecidableEq K] (m : List (K × V)) (k : K)
    (modify : V → V) (ins : V) : List (K × V) :=
  if m.any (fun q => q.1 = k) then
    m.map (fun q => if q.1 = k then (q.1, modify q.2) else q)
  else
    m ++ [(k, ins)]

/-- `Report::add_failed`: no-op when `on_failure_log` resolves to no level (`ward!`);
otherwise overwrite the entry's level and bump its count (the stored `error` is left
as first recorded), or insert a fresh entry with count 1. -/
def Report.add_failed (r : Report) (d : Dump) (error : String) (p : DumpParams) : Report :=
  match p.on_failure_log with
  | none => r
  | some level =>
    { r with
      failed := entryUpdate r.failed (d.message_protocol, d.message_name)
        (fun info => { info with level := level, count := info.count + 1 })
        { level := level, error := error, count := 1 } }

/-- `Report::add_overflow`.  Note: the source reads `params.on_failure_log` here
(serializer.rs:213), not `on_overflow_log`. -/
def Report.add_overflow (r : Report) (d : Dump) (truncated : Bool) (p : DumpParams) : Report :=
  match p.on_failure_log with
  | none => r
  | some level =>
    { r with
      overflow := entryUpdate r.overflow (d.message_protocol, d.message_name, truncated)
        (fun info => { info with level := level, count := info.count + 1 })
        { level := level, count := 1 } }

/-- `merge_maps`: fold the source map into the destination, combining on key
collision. -/
def merge_maps {K V : Type} [DecidableEq K] (dest src : List (K × V)) (f : V → V → V) :
    List (K × V) :=
  src.foldl (fun m kv => entryUpdate m kv.1 (fun v => f v kv.2) kv.2) dest

/-- `Report::merge`: add appended counts; merge both maps, overwriting the level and
accumulating the count on collision (the failure `error` detail keeps the
destination's value). -/
def Report.merge (r another : Report) : Report :=
  { appended := r.appended + another.appended,
    failed := merge_maps r.failed another.failed
      (fun a b => { a with level := b.level, count := a.count + b.count }),
    overflow := merge_maps r.overflow another.overflow
      (fun a b => { a with level := b.level, count := a.count + b.count }) }

/-! JSON text production, mirroring what `serde_json` writes. -/

/-- Lower-case hexadecimal digit. -/
def hexDigit (n : Nat) : Char :=
  if n < 10 then Char.ofNat (48 + n) else Char.ofNat (97 + (n - 10))

/-- Four-digit hexadecimal rendering, for `\uXXXX` escapes. -/
def hex4 (n : Nat) : String :=
  String.mk [hexDigit (n / 4096 % 16), hexDigit (n / 256 % 16),
             hexDigit (n / 16 % 16), hexDigit (n % 16)]

/-- JSON string-character escaping as `serde_json` performs it. -/
def escapeChar (c : Char) : String :=
  if c = '\"' then "\\\""
  else if c = '\\' then "\\\\"
  else if c.toNat = 8 then "\\b"
  else if c.toNat = 9 then "\\t"
  else if c.toNat = 10 then "\\n"
  else if c.toNat = 12 then "\\f"
  else if c.toNat = 13 then "\\r"
  else if c.toNat < 32 then "\\u" ++ hex4 c.toNat
  else String.singleton c

/-- Escape a whole string. -/
def jsonEscape (s : String) : String :=
  String.join (s.data.map escapeChar)

/-- A JSON string literal. -/
def jsonStr (s : String) : String :=
  "\"" ++ jsonEscape s ++ "\""

/-- A JSON number literal for a natural. -/
def jsonNat (n : Nat) : String :=
  toString n

/-- A field value that serializes in one write and never fails: a number. -/
def natField (n : Nat) : Message := ⟨[jsonNat n], none⟩

/-- A field value that serializes in one write and never fails: a string. -/
def strField (s : String) : Message := ⟨[jsonStr s], none⟩

/-- The literal `mk` tag of a message kind. -/
def messageKindStr : MessageKind → String
  | .Regular => "Regular"
  | .Request _ => "Request"
  | .Response _ => "Response"

/-- The ordered field list of `CompactDump::serialize`: `ts g [k] n s t th d cl mn mp
mk m [c]`, with `k` present iff the actor key is non-empty and `c` present iff the
kind is `Request` or `Response`.  `message = some m` is the truncation-substitution
mode (`compact_dump.message = Some(..)` in the source). -/
def compactFields (d : Dump) (cls : String) (nodeNo : Nat) (message : Option String) :
    List (String × Message) :=
  [("ts", natField d.timestamp), ("g", strField d.group)]
  ++ (if d.key = "" then [] else [("k", strField d.key)])
  ++ [("n", natField nodeNo), ("s", natField d.sequence_no), ("t", natField d.trace_id),
      ("th", natField d.thread_id), ("d", strField d.direction), ("cl", strField cls),
      ("mn", strField d.message_name), ("mp", strField d.message_protocol),
      ("mk", strField (messageKindStr d.message_kind)),
      ("m", match message with | some m => strField m | none => d.message)]
  ++ (match d.message_kind with
      | .Regular => []
      | .Request c => [("c", natField c)]
      | .Response c => [("c", natField c)])

/-- `serde_json` writes an object body as per-field punctuation-plus-key writes
followed by the field value's own writes, stopping at the first structural error. -/
def encodeFieldList : List (String × Message) → Bool → List String × Option String
  | [], _ => ([], none)
  | (n, v) :: rest, first =>
    let pre := (if first then "" else ",") ++ jsonStr n ++ ":"
    match v.err with
    | none =>
      let t := encodeFieldList rest false
      (pre :: v.chunks ++ t.1, t.2)
    | some e => (pre :: v.chunks, some e)

/-- The full write stream of a JSON object: `\x7b`, the field writes, `\x7d`; the
closing brace is reached only when no field failed. -/
def encodeStream (fields : List (String × Message)) : Message :=
  match encodeFieldList fields true with
  | (body, none) => ⟨"\x7b" :: body ++ ["\x7d"], none⟩
  | (body, some e) => ⟨"\x7b" :: body, some e⟩

/-- The write stream `serde_json::to_writer` produces for one `CompactDump`. -/
def compactDumpStream (d : Dump) (cls : String) (nodeNo : Nat) (message : Option String) :
    Message :=
  encodeStream (compactFields d cls nodeNo message)

/-- `LimitedWrite::write` over a stream of writes: each write whose byte size fits the
remaining budget is forwarded and the budget shrinks; the first write that does not
fit is reported as a zero-length write (an io error to `serde_json`).  Returns the
chunks actually written and whether the budget was hit. -/
def limitedWrite : List String → Nat → List String × Bool
  | [], _ => ([], false)
  | c :: rest, budget =>
    if c.utf8ByteSize > budget then ([], true)
    else
      let t := limitedWrite rest (budget - c.utf8ByteSize)
      (c :: t.1, t.2)

/-- Outcome of one `serde_json::to_writer` call through a `LimitedWrite`. -/
inductive EncodeResult where
  | success (written : List String)
  | ioOverflow (written : List String)
  | dataFail (written : List String) (e : String)
deriving DecidableEq, Repr

/-- `serde_json::to_writer` through `LimitedWrite`: an io error (`err.is_io()`) iff
the budget is hit before the stream ends; otherwise the stream's own structural error
if any; otherwise success with every chunk written. -/
def tryEncodeLimited (m : Message) (budget : Nat) : EncodeResult :=
  match limitedWrite m.chunks budget with
  | (w, true) => .ioOverflow w
  | (w, false) =>
    match m.err with
    | none => .success w
    | some e => .dataFail w e

/-- `node::node_no()` as the test environment resolves it. -/
def node.node_no : Nat := 65535

/-- The `Serializer` state.  `class` is a Lean keyword, hence `cls`.  The output byte
buffer is modelled as the list of writes that filled it; `name_buffer` (a scratch used
only to make message names contiguous) has no observable content and is omitted. -/
structure Serializer where
  cls : String
  node_no : Nat
  chunk_size : Nat
  message_buffer : List String
  output : List String
  need_to_clear : Bool
  report : Report
deriving DecidableEq, Repr

/-- Byte length of a buffer (the `len()` of the underlying `Vec<u8>`). -/
def outLen (out : List String) : Nat :=
  (out.map String.utf8ByteSize).sum

/-- The byte content of a buffer, as text. -/
def bytes (out : List String) : String :=
  String.join out

/-- `Serializer::with_chunk_size`. -/
def Serializer.with_chunk_size (chunk_size : Nat) (cls : String) : Serializer :=
  { cls := cls, node_no := node.node_no, chunk_size := chunk_size,
    message_buffer := [], output := [], need_to_clear := false, report := {} }

/-- `Serializer::new`: chunk size 128 KiB. -/
def Serializer.new (cls : String) : Serializer :=
  Serializer.with_chunk_size (128 * 1024) cls

/-- `Serializer::clear_if_needed`: apply the deferred physical clear. -/
def Serializer.clear_if_needed (s : Serializer) : Serializer :=
  if s.need_to_clear then { s with output := [], need_to_clear := false } else s

/-- `Serializer::take_if_limit_exceeded`: when the buffer's byte length exceeds the
limit, flag the deferred clear and hand out the buffer with the report moved out
(`mem::take`). -/
def Serializer.take_if_limit_exceeded (s : Serializer) (limit : Nat) :
    Serializer × Option (String × Report) :=
  if outLen s.output > limit then
    ({ s with need_to_clear := true, report := {} }, some (bytes s.output, s.report))
  else (s, none)

/-- `Serializer::do_append`.  `Ok true` — appended; `Ok false` — skipped;
`Error e` — failed.  The direct encode goes through `LimitedWrite` with budget
`max_size`; on budget overflow the buffer is rolled back (modelled by not extending
it) and the policy decides: `Skip` records an overflow stat, `Truncate` re-encodes
the message alone under the budget into `message_buffer`, appends the literal
`" TRUNCATED"`, and retries the full encode with the substituted payload and no
budget (`from_utf8_lossy` is the identity here since chunks are valid UTF-8). -/
def Serializer.do_append (s : Serializer) (d : Dump) (p : DumpParams) :
    Serializer × Except String Bool :=
  match tryEncodeLimited (compactDumpStream d s.cls s.node_no none) p.max_size with
  | .success w => ({ s with output := s.output ++ w }, .ok true)
  | .dataFail _ e => (s, .error e)
  | .ioOverflow _ =>
    if p.on_overflow = OnOverflow.Skip then
      ({ s with report := s.report.add_overflow d false p }, .ok false)
    else
      let mb := (limitedWrite d.message.chunks p.max_size).1 ++ [" TRUNCATED"]
      let retry := compactDumpStream d s.cls s.node_no (some (bytes mb))
      match retry.err with
      | none =>
        ({ s with message_buffer := mb, output := s.output ++ retry.chunks,
                  report := s.report.add_overflow d true p }, .ok true)
      | some e => ({ s with message_buffer := mb }, .error e)

/-- `Serializer::append`: deferred clear, then the encode attempt; on success bump
`appended`, push the line terminator and drain when over the chunk-size threshold;
on failure record the failure stat; on skip do nothing more. -/
def Serializer.append (s0 : Serializer) (d : Dump) (p : DumpParams) :
    Serializer × Option (String × Report) :=
  match s0.clear_if_needed.do_append d p with
  | (s, .ok true) =>
    (({ s with report := { s.report with appended := s.report.appended + 1 },
               output := s.output ++ ["\n"] } : Serializer)).take_if_limit_exceeded
      s.chunk_size
  | (s, .ok false) => (s, none)
  | (s, .error e) => ({ s with report := s.report.add_failed d e p }, none)

/-- `Serializer::take`: deferred clear, then a forced drain (limit 0). -/
def Serializer.take (s : Serializer) : Serializer × Option (String × Report) :=
  s.clear_if_needed.take_if_limit_exceeded 0

/-- Whether the direct (unsubstituted) encode of `d` hits the byte budget — the
condition that routes `do_append` into the overflow handling. -/
def Serializer.direct_overflows (s : Serializer) (d : Dump) (p : DumpParams) : Bool :=
  match tryEncodeLimited (compactDumpStream d s.cls s.node_no none) p.max_size with
  | .ioOverflow _ => true
  | _ => false

/-- The report a caller observes after a call: the drained report when a chunk is
returned, the serializer's current report otherwise. -/
def callReport : Serializer × Option (String × Report) → Report
  | (_, some (_, r)) => r
  | (s, none) => s.report

/-- Iterated `append` of the same record: the serializer state after `n` calls. -/
def appendTimes (d : Dump) (p : DumpParams) : Nat → Serializer → Serializer
  | 0, s => s
  | n + 1, s => ((appendTimes d p n s).append d p).1

/-- `n` copies of a string, concatenated. -/
def repeatString : Nat → String → String
  | 0, _ => ""
  | n + 1, s => s ++ repeatString n s

/-- The cumulative count stored in a report's overflow map for one key (0 when the
key is absent). -/
def overflowCount (r : Report) (k : String × String × Bool) : Nat :=
  match lookupKey r.overflow k with
  | some info => info.count
  | none => 0


/-! Concrete fixtures used to exercise the model. -/

/-- A record whose encoded line is exactly 100 bytes (101 with the terminator). -/
def dSmall : Dump :=
  { timestamp := 1, group := "", key := "", sequence_no := 1, trace_id := 1,
    thread_id := 0, direction := "In", message_name := "", message_protocol := "",
    message_kind := MessageKind.Regular, message := strField "" }

/-- The 100-byte encoded line of `dSmall` under class "c". -/
def lineSmall : String :=
  "\x7b\"ts\":1,\"g\":\"\",\"n\":65535,\"s\":1,\"t\":1,\"th\":0,\"d\":\"In\",\"cl\":\"c\",\"mn\":\"\",\"mp\":\"\",\"mk\":\"Regular\",\"m\":\"\"\x7d"

/-- A record with a large payload (44 bytes encoded), used to trigger overflow. -/
def dBig : Dump :=
  { timestamp := 2, group := "g1", key := "", sequence_no := 7, trace_id := 3,
    thread_id := 0, direction := "Out", message_name := "M1", message_protocol := "p1",
    message_kind := MessageKind.Regular,
    message := strField "0123456789012345678901234567890123456789xy" }

/-- A record whose payload fails structurally after one emitted chunk. -/
def dBad : Dump :=
  { dBig with message_name := "Bad", message := ⟨["\x7b"], some "key must be a string"⟩ }

/-- A fresh serializer with chunk size 1024 and class "c". -/
def sFresh : Serializer := Serializer.with_chunk_size 1024 "c"

/-- A serializer currently holding one buffered line. -/
def sBuf : Serializer := { sFresh with output := ["line one\n"] }

/-! Helper lemmas about the association-list maps. -/

theorem lookupKey_eq_none_of_any_eq_false {K V : Type} [DecidableEq K]
    (m : List (K × V)) (k : K) (h : m.any (fun q => q.1 = k) = false) :
    lookupKey m k = none := by
  induction m with
  | nil => rfl
  | cons q rest ih =>
    simp only [List.any_cons, Bool.or_eq_false_iff, decide_eq_false_iff_not] at h
    simp only [lookupKey, if_neg h.1]
    exact ih (by simpa using h.2)

theorem lookupKey_map_update {K V : Type} [DecidableEq K]
    (m : List (K × V)) (k k' : K) (g : V → V) :
    lookupKey (m.map (fun q => if q.1 = k then (q.1, g q.2) else q)) k' =
      if k' = k then (lookupKey m k).map g else lookupKey m k' := by
  induction m with
  | nil => by_cases hk : k' = k <;> simp [lookupKey, hk]
  | cons q rest ih =>
    obtain ⟨qk, qv⟩ := q
    by_cases hq : qk = k
    · subst hq
      by_cases hk : k' = qk
      · subst hk
        simp [lookupKey, ih]
      · have hk2 : ¬qk = k' := fun h => hk h.symm
        simp [lookupKey, hk, hk2, ih]
    · by_cases hk : k' = k
      · subst hk
        have hq2 : ¬qk = k' := hq
        simp [lookupKey, hq, hq2, ih]
      · by_cases hq' : qk = k'
        · subst hq'
          simp [lookupKey, hq, hk]
        · simp [lookupKey, hq, hq', hk, ih]

theorem lookupKey_append_single {K V : Type} [DecidableEq K]
    (m : List (K × V)) (k k' : K) (ins : V) :
    lookupKey (m ++ [(k, ins)]) k' =
      match lookupKey m k' with
      | some v => some v
      | none => if k = k' then some ins else none := by
  induction m with
  | nil => simp [lookupKey]
  | cons q rest ih =>
    by_cases hq : q.1 = k'
    · simp [lookupKey, hq]
    · simp [lookupKey, hq, ih]

/-- Full characterization of `entryUpdate` through `lookupKey`. -/
theorem lookupKey_entryUpdate {K V : Type} [DecidableEq K]
    (m : List (K × V)) (k k' : K) (g : V → V) (ins : V) :
    lookupKey (entryUpdate m k g ins) k' =
      if k' = k then
        (match lookupKey m k with
         | some v => some (g v)
         | none => some ins)
      else lookupKey m k' := by
  unfold entryUpdate
  by_cases hmem : m.any (fun q => q.1 = k) = true
  · rw [if_pos hmem, lookupKey_map_update]
    by_cases hk : k' = k
    · rcases h : lookupKey m k with _ | v
      · exfalso
        induction m with
        | nil => simp at hmem
        | cons q rest ih =>
          simp only [List.any_cons, Bool.or_eq_true, decide_eq_true_eq] at hmem
          by_cases hq : q.1 = k
          · simp [lookupKey, hq] at h
          · simp only [lookupKey, if_neg hq] at h
            exact ih (by simpa using hmem.resolve_left hq) h
      · simp [hk, h]
    · simp [hk]
  · have hfalse : m.any (fun q => q.1 = k) = false := by
      cases hb : m.any (fun q => q.1 = k) with
      | false => rfl
      | true => exact absurd hb hmem
    have hnone := lookupKey_eq_none_of_any_eq_false m k hfalse
    rw [if_neg hmem, lookupKey_append_single]
    by_cases hk : k' = k
    · subst hk
      simp [hnone]
    · have hk2 : ¬k = k' := fun h => hk h.symm
      rcases h : lookupKey m k' with _ | v <;> simp [h, hk, hk2]

theorem lookupKey_eq_none_of_not_mem_keys {K V : Type} [DecidableEq K]
    (m : List (K × V)) (k : K) (h : k ∉ m.map Prod.fst) :
    lookupKey m k = none := by
  induction m with
  | nil => rfl
  | cons q rest ih =>
    simp only [List.map_cons, List.mem_cons] at h
    push_neg at h
    have hq : ¬q.1 = k := fun he => h.1 he.symm
    simp only [lookupKey, if_neg hq]
    exact ih h.2

/-- `merge_maps` leaves the lookup of keys absent from the source unchanged. -/
theorem lookupKey_merge_maps_of_src_none {K V : Type} [DecidableEq K]
    (src : List (K × V)) (dest : List (K × V)) (f : V → V → V) (k : K)
    (h : lookupKey src k = none) :
    lookupKey (merge_maps dest src f) k = lookupKey dest k := by
  induction src generalizing dest with
  | nil => rfl
  | cons kv rest ih =>
    simp only [lookupKey] at h
    by_cases hk : kv.1 = k
    · simp [hk] at h
    · rw [if_neg hk] at h
      show lookupKey (merge_maps (entryUpdate dest kv.1 _ kv.2) rest f) k = _
      rw [ih _ h, lookupKey_entryUpdate]
      exact if_neg (fun he => hk he.symm)

/-- On a key present in both maps (source keys unique), `merge_maps` combines the two
values with `f`. -/
theorem lookupKey_merge_maps_of_both {K V : Type} [DecidableEq K]
    (src : List (K × V)) (dest : List (K × V)) (f : V → V → V) (k : K) (a b : V)
    (hnodup : (src.map Prod.fst).Nodup)
    (ha : lookupKey dest k = some a) (hb : lookupKey src k = some b) :
    lookupKey (merge_maps dest src f) k = some (f a b) := by
  induction src generalizing dest with
  | nil => simp [lookupKey] at hb
  | cons kv rest ih =>
    obtain ⟨kk, kvv⟩ := kv
    simp only [List.map_cons, List.nodup_cons] at hnodup
    simp only [lookupKey] at hb
    by_cases hk : kk = k
    · subst hk
      rw [if_pos rfl] at hb
      have hbe : kvv = b := Option.some.inj hb
      subst hbe
      show lookupKey (merge_maps (entryUpdate dest kk _ kvv) rest f) kk = _
      rw [lookupKey_merge_maps_of_src_none rest _ f kk
            (lookupKey_eq_none_of_not_mem_keys rest kk hnodup.1),
          lookupKey_entryUpdate, if_pos rfl, ha]
    · rw [if_neg hk] at hb
      show lookupKey (merge_maps (entryUpdate dest kk _ kvv) rest f) k = _
      refine ih _ hnodup.2 ?_ hb
      rw [lookupKey_entryUpdate, if_neg (fun he => hk he.symm)]
      exact ha

/-! Structural lemmas about the serializer. -/

theorem clear_if_needed_report (s : Serializer) : s.clear_if_needed.report = s.report := by
  unfold Serializer.clear_if_needed
  split <;> rfl

theorem clear_if_needed_need_to_clear (s : Serializer) :
    s.clear_if_needed.need_to_clear = false := by
  unfold Serializer.clear_if_needed
  split
  · rfl
  · rename_i h
    simpa using h

theorem clear_if_needed_of_false (s : Serializer) (h : s.need_to_clear = false) :
    s.clear_if_needed = s := by
  unfold Serializer.clear_if_needed
  rw [h]
  simp

theorem clear_if_needed_idem (s : Serializer) :
    s.clear_if_needed.clear_if_needed = s.clear_if_needed :=
  clear_if_needed_of_false _ (clear_if_needed_need_to_clear s)

theorem callReport_take_if_limit_exceeded (s : Serializer) (limit : Nat) :
    callReport (s.take_if_limit_exceeded limit) = s.report := by
  unfold Serializer.take_if_limit_exceeded
  split <;> rfl

theorem take_if_limit_exceeded_output (s : Serializer) (limit : Nat) :
    (s.take_if_limit_exceeded limit).1.output = s.output := by
  unfold Serializer.take_if_limit_exceeded
  split <;> rfl

/-- The write stream of a field list in which every field value encodes without a
structural error never ends with one. -/
theorem encodeFieldList_err_none (fs : List (String × Message)) (b : Bool)
    (h : ∀ q ∈ fs, (Prod.snd q).err = none) : (encodeFieldList fs b).2 = none := by
  induction fs generalizing b with
  | nil => rfl
  | cons q rest ih =>
    obtain ⟨n, v⟩ := q
    have hv : v.err = none := h (n, v) (List.mem_cons_self _ _)
    simp only [encodeFieldList, hv]
    exact ih false (fun q hq => h q (List.mem_cons_of_mem _ hq))

/-- The truncation retry (`message = Some(..)`) always encodes successfully: its
stream has no structural error. -/
theorem compactDumpStream_subst_err_none (d : Dump) (cls : String) (nodeNo : Nat)
    (m : String) : (compactDumpStream d cls nodeNo (some m)).err = none := by
  unfold compactDumpStream encodeStream compactFields
  by_cases hk : d.key = "" <;> rcases hmk : d.message_kind with _ | c | c <;>
    simp [hk, hmk, encodeFieldList, natField, strField]

/-- Byte length distributes over buffer concatenation. -/
theorem outLen_append (a b : List String) : outLen (a ++ b) = outLen a + outLen b := by
  unfold outLen
  rw [List.map_append, List.sum_append]

/-! Characterizations of `do_append` and `take_if_limit_exceeded` per control path. -/

theorem do_append_of_success (s : Serializer) (d : Dump) (p : DumpParams) (w : List String)
    (h : tryEncodeLimited (compactDumpStream d s.cls s.node_no none) p.max_size =
      EncodeResult.success w) :
    s.do_append d p = ({ s with output := s.output ++ w }, Except.ok true) := by
  unfold Serializer.do_append
  rw [h]

theorem do_append_of_dataFail (s : Serializer) (d : Dump) (p : DumpParams)
    (w : List String) (e : String)
    (h : tryEncodeLimited (compactDumpStream d s.cls s.node_no none) p.max_size =
      EncodeResult.dataFail w e) :
    s.do_append d p = (s, Except.error e) := by
  unfold Serializer.do_append
  rw [h]

theorem do_append_of_skip (s : Serializer) (d : Dump) (p : DumpParams) (w : List String)
    (h : tryEncodeLimited (compactDumpStream d s.cls s.node_no none) p.max_size =
      EncodeResult.ioOverflow w)
    (hpol : p.on_overflow = OnOverflow.Skip) :
    s.do_append d p = ({ s with report := s.report.add_overflow d false p },
      Except.ok false) := by
  unfold Serializer.do_append
  rw [h]
  simp [hpol]

theorem do_append_of_truncate (s : Serializer) (d : Dump) (p : DumpParams) (w : List String)
    (h : tryEncodeLimited (compactDumpStream d s.cls s.node_no none) p.max_size =
      EncodeResult.ioOverflow w)
    (hpol : p.on_overflow = OnOverflow.Truncate) :
    s.do_append d p =
      ({ s with
          message_buffer := (limitedWrite d.message.chunks p.max_size).1 ++ [" TRUNCATED"],
          output := s.output ++
            (compactDumpStream d s.cls s.node_no
              (some (bytes ((limitedWrite d.message.chunks p.max_size).1
                ++ [" TRUNCATED"])))).chunks,
          report := s.report.add_overflow d true p }, Except.ok true) := by
  unfold Serializer.do_append
  rw [h]
  have hskip : ¬p.on_overflow = OnOverflow.Skip := by
    rw [hpol]
    intro hc
    cases hc
  rw [if_neg hskip]
  simp only []
  rw [compactDumpStream_subst_err_none]

theorem take_if_limit_exceeded_of_some (s : Serializer) (limit : Nat) (s1 : Serializer)
    (c : String × Report) (h : s.take_if_limit_exceeded limit = (s1, some c)) :
    s1 = { s with need_to_clear := true, report := {} } ∧
      c = (bytes s.output, s.report) ∧ outLen s.output > limit := by
  unfold Serializer.take_if_limit_exceeded at h
  split at h
  · rename_i hgt
    simp only [Prod.mk.injEq] at h
    exact ⟨h.1.symm, (Option.some.inj h.2).symm, hgt⟩
  · simp at h

theorem take_if_limit_exceeded_of_none (s : Serializer) (limit : Nat) (s1 : Serializer)
    (h : s.take_if_limit_exceeded limit = (s1, none)) :
    s1 = s ∧ outLen s.output ≤ limit := by
  unfold Serializer.take_if_limit_exceeded at h
  split at h
  · simp at h
  · rename_i hle
    simp only [Prod.mk.injEq] at h
    exact ⟨h.1.symm, by omega⟩

/-- After the deferred-clear flag is set, the next `take` finds an empty buffer. -/
theorem take_snd_none_of_need_to_clear (s : Serializer) (h : s.need_to_clear = true) :
    (s.take).2 = none := by
  unfold Serializer.take Serializer.clear_if_needed
  rw [h]
  simp [Serializer.take_if_limit_exceeded, outLen]

theorem clear_if_needed_output_of_need_to_clear (s : Serializer)
    (h : s.need_to_clear = true) : s.clear_if_needed.output = [] := by
  unfold Serializer.clear_if_needed
  rw [h]
  simp

/-- Symmetric variant: a key absent from the destination but present in the (unique-key)
source ends up in the merge with the source's value, unchanged. -/
theorem lookupKey_merge_maps_of_dest_none {K V : Type} [DecidableEq K]
    (src : List (K × V)) (dest : List (K × V)) (f : V → V → V) (k : K) (b : V)
    (hnodup : (src.map Prod.fst).Nodup)
    (hd : lookupKey dest k = none) (hb : lookupKey src k = some b) :
    lookupKey (merge_maps dest src f) k = some b := by
  induction src generalizing dest with
  | nil => simp [lookupKey] at hb
  | cons kv rest ih =>
    obtain ⟨kk, kvv⟩ := kv
    simp only [List.map_cons, List.nodup_cons] at hnodup
    simp only [lookupKey] at hb
    by_cases hk : kk = k
    · subst hk
      rw [if_pos rfl] at hb
      have hbe : kvv = b := Option.some.inj hb
      subst hbe
      show lookupKey (merge_maps (entryUpdate dest kk _ kvv) rest f) kk = _
      rw [lookupKey_merge_maps_of_src_none rest _ f kk
            (lookupKey_eq_none_of_not_mem_keys rest kk hnodup.1),
          lookupKey_entryUpdate, if_pos rfl, hd]
    · rw [if_neg hk] at hb
      show lookupKey (merge_maps (entryUpdate dest kk _ kvv) rest f) k = _
      refine ih _ hnodup.2 ?_ hb
      rw [lookupKey_entryUpdate, if_neg (fun he => hk he.symm)]
      exact hd

theorem append_of_ok_true (s : Serializer) (d : Dump) (p : DumpParams) (s2 : Serializer)
    (h : s.clear_if_needed.do_append d p = (s2, Except.ok true)) :
    s.append d p =
      ({ s2 with report := { s2.report with appended := s2.report.appended + 1 },
                 output := s2.output ++ ["\n"] } : Serializer).take_if_limit_exceeded
        s2.chunk_size := by
  unfold Serializer.append
  rw [h]

theorem append_of_ok_false (s : Serializer) (d : Dump) (p : DumpParams) (s2 : Serializer)
    (h : s.clear_if_needed.do_append d p = (s2, Except.ok false)) :
    s.append d p = (s2, none) := by
  unfold Serializer.append
  rw [h]

theorem append_of_error (s : Serializer) (d : Dump) (p : DumpParams) (s2 : Serializer)
    (e : String) (h : s.clear_if_needed.do_append d p = (s2, Except.error e)) :
    s.append d p = ({ s2 with report := s2.report.add_failed d e p }, none) := by
  unfold Serializer.append
  rw [h]

/-! The claims. -/

/-- C1: the claim says the overflow statistic is suppressed exactly when
`on_overflow_log` resolves to no level, independently of `on_failure_log`.  The code
instead gates `add_overflow` on `on_failure_log` (serializer.rs:213): with
`on_overflow_log = none` but `on_failure_log = warn` it records (for both truncated
flags), and with `on_overflow_log = warn` but `on_failure_log = none` it is a no-op. -/
theorem C1_add_overflow_gated_by_on_failure_log :
    (Report.add_overflow {} dBig false
        { on_failure_log := some Level.warn, on_overflow_log := none } ≠ {}) ∧
    (Report.add_overflow {} dBig true
        { on_failure_log := some Level.warn, on_overflow_log := none } ≠ {}) ∧
    (Report.add_overflow {} dBig false
        { on_failure_log := none, on_overflow_log := some Level.warn } = {}) ∧
    (Report.add_overflow {} dBig true
        { on_failure_log := none, on_overflow_log := some Level.warn } = {}) := by
  decide

/-- C3 (counterexample): after a second `add_failed` on an existing key, and after a
`merge` colliding on a key, the stored error detail is the FIRST recorded error, not
the incoming one — so "the most-recent error detail is overwritten with the incoming
value" fails at this input (the entry would have to read "error two"). -/
theorem C3_counterexample :
    lookupKey ((Report.add_failed (Report.add_failed {} dBig "error one" {})
        dBig "error two" {}).failed) ("p1", "M1") =
      some { level := Level.warn, error := "error one", count := 2 } ∧
    lookupKey ((Report.merge (Report.add_failed {} dBig "error one" {})
        (Report.add_failed {} dBig "error two" {})).failed) ("p1", "M1") =
      some { level := Level.warn, error := "error one", count := 2 } ∧
    ({ level := Level.warn, error := "error one", count := 2 } : FailedDumpInfo) ≠
      { level := Level.warn, error := "error two", count := 2 } := by
  decide

/-- C3 (amended): for `add_failed` on an existing key the severity is overwritten and
the count incremented, but the stored error detail keeps the FIRST recorded error;
on an absent key a fresh entry with count 1 and the incoming error is inserted.
`merge` on a key present in both reports overwrites the severity with the source's,
sums the counts, and keeps the destination's error detail; a key only in the source
is inserted as-is. -/
theorem C3_amended :
    (∀ (r : Report) (d : Dump) (e : String) (p : DumpParams) (lvl : Level)
        (info : FailedDumpInfo),
        p.on_failure_log = some lvl →
        lookupKey r.failed (d.message_protocol, d.message_name) = some info →
        lookupKey (r.add_failed d e p).failed (d.message_protocol, d.message_name) =
          some { level := lvl, error := info.error, count := info.count + 1 }) ∧
    (∀ (r : Report) (d : Dump) (e : String) (p : DumpParams) (lvl : Level),
        p.on_failure_log = some lvl →
        lookupKey r.failed (d.message_protocol, d.message_name) = none →
        lookupKey (r.add_failed d e p).failed (d.message_protocol, d.message_name) =
          some { level := lvl, error := e, count := 1 }) ∧
    (∀ (a b : Report) (k : String × String) (ia ib : FailedDumpInfo),
        (b.failed.map Prod.fst).Nodup →
        lookupKey a.failed k = some ia →
        lookupKey b.failed k = some ib →
        lookupKey (a.merge b).failed k =
          some { level := ib.level, error := ia.error, count := ia.count + ib.count }) ∧
    (∀ (a b : Report) (k : String × String) (ib : FailedDumpInfo),
        (b.failed.map Prod.fst).Nodup →
        lookupKey a.failed k = none →
        lookupKey b.failed k = some ib →
        lookupKey (a.merge b).failed k = some ib) := by
  refine ⟨?_, ?_, ?_, ?_⟩
  · intro r d e p lvl info hp hl
    unfold Report.add_failed
    rw [hp]
    simp only []
    rw [lookupKey_entryUpdate, if_pos rfl, hl]
  · intro r d e p lvl hp hl
    unfold Report.add_failed
    rw [hp]
    simp only []
    rw [lookupKey_entryUpdate, if_pos rfl, hl]
  · intro a b k ia ib hnodup ha hb
    unfold Report.merge
    simp only []
    exact lookupKey_merge_maps_of_both b.failed a.failed _ k ia ib hnodup ha hb
  · intro a b k ib hnodup ha hb
    unfold Report.merge
    simp only []
    exact lookupKey_merge_maps_of_dest_none b.failed a.failed _ k ib hnodup ha hb

/-- C3 (witness): the amended theorem applied to concrete reports. -/
theorem C3_amended_witness :
    lookupKey ((Report.add_failed (Report.add_failed {} dBig "error one" {})
        dBig "error two" {}).failed) (dBig.message_protocol, dBig.message_name) =
      some { level := Level.warn, error := "error one", count := 1 + 1 } ∧
    lookupKey ((Report.merge (Report.add_failed {} dBig "error one" {})
        (Report.add_failed {} dBig "error two" {})).failed)
        (dBig.message_protocol, dBig.message_name) =
      some { level := Level.warn, error := "error one", count := 1 + 1 } := by
  constructor
  · exact C3_amended.1 _ dBig "error two" {} Level.warn
      { level := Level.warn, error := "error one", count := 1 } rfl (by decide)
  · exact C3_amended.2.2.1 _ _ (dBig.message_protocol, dBig.message_name)
      { level := Level.warn, error := "error one", count := 1 }
      { level := Level.warn, error := "error two", count := 1 }
      (by decide) (by decide) (by decide)

/-- C8: for every record the encoder's field names appear in exactly the order
`ts g [k] n s t th d cl mn mp mk m [c]`, with the key field present iff the actor key
is non-empty and the correlation field present iff the kind is Request or Response. -/
theorem C8_field_order (d : Dump) (cls : String) (nodeNo : Nat) (message : Option String) :
    (compactFields d cls nodeNo message).map Prod.fst =
      ["ts", "g"] ++ (if d.key = "" then [] else ["k"])
        ++ ["n", "s", "t", "th", "d", "cl", "mn", "mp", "mk", "m"]
        ++ (if d.message_kind = MessageKind.Regular then [] else ["c"]) ∧
    ("k" ∈ (compactFields d cls nodeNo message).map Prod.fst ↔ ¬d.key = "") ∧
    ("c" ∈ (compactFields d cls nodeNo message).map Prod.fst ↔
      (∃ cid, d.message_kind = MessageKind.Request cid ∨
              d.message_kind = MessageKind.Response cid)) := by
  by_cases hk : d.key = "" <;> rcases hmk : d.message_kind with _ | c | c <;>
    simp [compactFields, hk, hmk]

/-- C9: `take` forces a drain regardless of the chunk-size threshold: it returns
`none` iff the buffer (after the pending deferred clear) is empty, otherwise it
returns all currently buffered bytes with the accumulated report, and resets the
report to empty for the next period. -/
theorem C9_take_forces_drain (s : Serializer) :
    ((s.take).2 = none ↔ outLen s.clear_if_needed.output = 0) ∧
    (∀ (s1 : Serializer) (c : String) (r : Report),
        s.take = (s1, some (c, r)) →
        c = bytes s.clear_if_needed.output ∧ r = s.report ∧
        s1.report.appended = 0 ∧ s1.report.failed = [] ∧ s1.report.overflow = []) := by
  constructor
  · show (Serializer.take_if_limit_exceeded _ 0).2 = none ↔ _
    rcases h : s.clear_if_needed.take_if_limit_exceeded 0 with ⟨s1, res⟩
    cases res with
    | none =>
      have hn := take_if_limit_exceeded_of_none _ _ _ h
      constructor
      · intro _
        have hle := hn.2
        omega
      · intro _
        rfl
    | some c =>
      have hs := take_if_limit_exceeded_of_some _ _ _ _ h
      constructor
      · intro hc
        exact Option.noConfusion hc
      · intro h0
        exfalso
        have hgt := hs.2.2
        omega
  · intro s1 c r heq
    have hs := take_if_limit_exceeded_of_some _ _ _ _ heq
    obtain ⟨hs1, hc, _⟩ := hs
    rw [Prod.mk.injEq] at hc
    refine ⟨hc.1, ?_, ?_, ?_, ?_⟩
    · rw [hc.2, clear_if_needed_report]
    · rw [hs1]
    · rw [hs1]
    · rw [hs1]

/-- C9 (witness): on a serializer holding one buffered line, `take` drains it. -/
theorem C9_take_forces_drain_witness :
    sBuf.take = ((sBuf.take).1,
      some ("line one\n", { appended := 0, failed := [], overflow := [] })) ∧
    ("line one\n" = bytes sBuf.clear_if_needed.output ∧
      ({ appended := 0, failed := [], overflow := [] } : Report) = sBuf.report ∧
      (sBuf.take).1.report.appended = 0 ∧ (sBuf.take).1.report.failed = [] ∧
      (sBuf.take).1.report.overflow = []) :=
  ⟨by decide, (C9_take_forces_drain sBuf).2 _ _ _ (by decide)⟩

/-- C10: drained bytes are never emitted twice.  After any `append` or `take` that
returns a chunk, the deferred-clear flag is set, an immediate `take` returns `none`,
and the next call's pending clear empties the buffer physically before anything else
(`append`/`take` behave exactly as on the cleared state), so no byte of a returned
chunk reappears in a later chunk. -/
theorem C10_no_double_emission :
    (∀ (s : Serializer) (d : Dump) (p : DumpParams) (s1 : Serializer) (c : String × Report),
        s.append d p = (s1, some c) →
        s1.need_to_clear = true ∧ s1.clear_if_needed.output = [] ∧ (s1.take).2 = none) ∧
    (∀ (s s1 : Serializer) (c : String × Report),
        s.take = (s1, some c) →
        s1.need_to_clear = true ∧ s1.clear_if_needed.output = [] ∧ (s1.take).2 = none) ∧
    (∀ (s : Serializer) (d : Dump) (p : DumpParams),
        s.append d p = s.clear_if_needed.append d p) ∧
    (∀ s : Serializer, s.take = s.clear_if_needed.take) := by
  have key : ∀ s1 : Serializer, s1.need_to_clear = true →
      s1.need_to_clear = true ∧ s1.clear_if_needed.output = [] ∧ (s1.take).2 = none :=
    fun s1 h => ⟨h, clear_if_needed_output_of_need_to_clear s1 h,
      take_snd_none_of_need_to_clear s1 h⟩
  refine ⟨?_, ?_, ?_, ?_⟩
  · intro s d p s1 c heq
    rcases hda : s.clear_if_needed.do_append d p with ⟨s2, res⟩
    cases res with
    | error e =>
      rw [append_of_error s d p s2 e hda] at heq
      simp at heq
    | ok b =>
      cases b with
      | false =>
        rw [append_of_ok_false s d p s2 hda] at heq
        simp at heq
      | true =>
        rw [append_of_ok_true s d p s2 hda] at heq
        have hs := take_if_limit_exceeded_of_some _ _ _ _ heq
        apply key
        rw [hs.1]
  · intro s s1 c heq
    have hs := take_if_limit_exceeded_of_some _ _ _ _ heq
    apply key
    rw [hs.1]
  · intro s d p
    unfold Serializer.append
    rw [clear_if_needed_idem]
  · intro s
    unfold Serializer.take
    rw [clear_if_needed_idem]

/-- C10 (witness): draining the buffered line and probing again. -/
theorem C10_no_double_emission_witness :
    sBuf.take = ((sBuf.take).1,
      some ("line one\n", ({ appended := 0, failed := [], overflow := [] } : Report))) ∧
    ((sBuf.take).1.need_to_clear = true ∧ (sBuf.take).1.clear_if_needed.output = [] ∧
      (((sBuf.take).1).take).2 = none) :=
  ⟨by decide, C10_no_double_emission.2.1 sBuf (sBuf.take).1
    ("line one\n", { appended := 0, failed := [], overflow := [] }) (by decide)⟩


/-! Small facts about the report operations. -/

theorem add_overflow_appended (r : Report) (d : Dump) (t : Bool) (p : DumpParams) :
    (r.add_overflow d t p).appended = r.appended := by
  unfold Report.add_overflow
  rcases h : p.on_failure_log with _ | lvl <;> rfl

theorem add_overflow_failed (r : Report) (d : Dump) (t : Bool) (p : DumpParams) :
    (r.add_overflow d t p).failed = r.failed := by
  unfold Report.add_overflow
  rcases h : p.on_failure_log with _ | lvl <;> rfl

theorem add_overflow_of_none (r : Report) (d : Dump) (t : Bool) (p : DumpParams)
    (h : p.on_failure_log = none) : r.add_overflow d t p = r := by
  unfold Report.add_overflow
  rw [h]

theorem add_overflow_count (r : Report) (d : Dump) (t : Bool) (p : DumpParams)
    (lvl : Level) (h : p.on_failure_log = some lvl) :
    overflowCount (r.add_overflow d t p) (d.message_protocol, d.message_name, t) =
      overflowCount r (d.message_protocol, d.message_name, t) + 1 := by
  unfold Report.add_overflow overflowCount
  rw [h]
  simp only []
  rw [lookupKey_entryUpdate, if_pos rfl]
  rcases hl : lookupKey r.overflow (d.message_protocol, d.message_name, t) with _ | info <;>
    simp [hl]

/-- A `Bool`-level elimination of `direct_overflows`. -/
theorem direct_overflows_elim (s : Serializer) (d : Dump) (p : DumpParams)
    (h : s.direct_overflows d p = true) :
    ∃ w, tryEncodeLimited (compactDumpStream d s.cls s.node_no none) p.max_size =
      EncodeResult.ioOverflow w := by
  unfold Serializer.direct_overflows at h
  cases htr : tryEncodeLimited (compactDumpStream d s.cls s.node_no none) p.max_size with
  | success w =>
    rw [htr] at h
    exact Bool.noConfusion h
  | ioOverflow w => exact ⟨w, rfl⟩
  | dataFail w e =>
    rw [htr] at h
    exact Bool.noConfusion h

theorem bytes_append_single (l : List String) (x : String) :
    bytes (l ++ [x]) = bytes l ++ x := by
  unfold bytes String.join
  rw [List.foldl_append]
  rfl


/-- C4 (counterexample): on a successful truncate retry the call touches TWO
statistics — `appended` is incremented AND the overflow-truncate counter is
recorded — so "exactly one of the four statistics is touched" fails at this
concrete input. -/
theorem C4_counterexample :
    (callReport (sFresh.append dBig
      { max_size := 10, on_overflow := OnOverflow.Truncate })).appended =
        sFresh.report.appended + 1 ∧
    (callReport (sFresh.append dBig
      { max_size := 10, on_overflow := OnOverflow.Truncate })).overflow ≠
        sFresh.report.overflow := by
  decide

/-- C4 (amended): per call the four control outcomes are mutually exclusive and the
statistics move in exactly one of four shapes: plain success bumps only `appended`;
a successful truncate retry bumps `appended` AND records one overflow-truncate stat;
skip records one overflow-skip stat only; failure records one failure stat only
(each stat recording being the single `entry` update of `add_overflow`/`add_failed`,
which is a no-op when the resolved severity is none). -/
theorem C4_amended (s : Serializer) (d : Dump) (p : DumpParams) :
    callReport (s.append d p) = { s.report with appended := s.report.appended + 1 } ∨
    callReport (s.append d p) =
      { s.report.add_overflow d true p with
          appended := (s.report.add_overflow d true p).appended + 1 } ∨
    callReport (s.append d p) = s.report.add_overflow d false p ∨
    (∃ e, callReport (s.append d p) = s.report.add_failed d e p) := by
  cases htr : tryEncodeLimited
      (compactDumpStream d s.clear_if_needed.cls s.clear_if_needed.node_no none)
      p.max_size with
  | success w =>
    left
    have hda := do_append_of_success s.clear_if_needed d p w htr
    rw [append_of_ok_true s d p _ hda, callReport_take_if_limit_exceeded]
    rw [clear_if_needed_report]
  | ioOverflow w =>
    cases hpol : p.on_overflow with
    | Skip =>
      right; right; left
      have hda := do_append_of_skip s.clear_if_needed d p w htr hpol
      rw [append_of_ok_false s d p _ hda]
      show s.clear_if_needed.report.add_overflow d false p = _
      rw [clear_if_needed_report]
    | Truncate =>
      right; left
      have hda := do_append_of_truncate s.clear_if_needed d p w htr hpol
      rw [append_of_ok_true s d p _ hda, callReport_take_if_limit_exceeded]
      rw [clear_if_needed_report]
  | dataFail w e =>
    right; right; right
    refine ⟨e, ?_⟩
    have hda := do_append_of_dataFail s.clear_if_needed d p w e htr
    rw [append_of_error s d p _ e hda]
    show s.clear_if_needed.report.add_failed d e p = _
    rw [clear_if_needed_report]

/-- C5: during one `append` call the buffer (after the pending deferred clear, i.e.
at its pre-attempt state) only grows — the pre-attempt content stays a prefix — and
on every non-success outcome (structural failure, overflow under Skip, or a failed
truncate retry) it is rolled back to exactly the pre-attempt content. -/
theorem C5_buffer_rollback (s : Serializer) (d : Dump) (p : DumpParams) :
    (∃ ext, ((s.append d p).1).output = s.clear_if_needed.output ++ ext) ∧
    outLen s.clear_if_needed.output ≤ outLen ((s.append d p).1).output ∧
    (∀ e, (s.clear_if_needed.do_append d p).2 = Except.error e →
      ((s.append d p).1).output = s.clear_if_needed.output) ∧
    ((s.clear_if_needed.do_append d p).2 = Except.ok false →
      ((s.append d p).1).output = s.clear_if_needed.output) := by
  cases htr : tryEncodeLimited
      (compactDumpStream d s.clear_if_needed.cls s.clear_if_needed.node_no none)
      p.max_size with
  | success w =>
    have hda := do_append_of_success s.clear_if_needed d p w htr
    have hout : ((s.append d p).1).output =
        s.clear_if_needed.output ++ (w ++ ["\n"]) := by
      rw [append_of_ok_true s d p _ hda, take_if_limit_exceeded_output]
      rw [List.append_assoc]
    refine ⟨⟨w ++ ["\n"], hout⟩, ?_, ?_, ?_⟩
    · rw [hout, outLen_append]
      omega
    · intro e he
      rw [hda] at he
      exact Except.noConfusion he
    · intro he
      rw [hda] at he
      simp at he
  | ioOverflow w =>
    cases hpol : p.on_overflow with
    | Skip =>
      have hda := do_append_of_skip s.clear_if_needed d p w htr hpol
      have hout : ((s.append d p).1).output = s.clear_if_needed.output := by
        rw [append_of_ok_false s d p _ hda]
      refine ⟨⟨[], by rw [hout, List.append_nil]⟩, le_of_eq (by rw [hout]), ?_, ?_⟩
      · intro e he
        rw [hda] at he
        exact Except.noConfusion he
      · intro _
        exact hout
    | Truncate =>
      have hda := do_append_of_truncate s.clear_if_needed d p w htr hpol
      have hout : ((s.append d p).1).output =
          s.clear_if_needed.output ++
            ((compactDumpStream d s.clear_if_needed.cls s.clear_if_needed.node_no
              (some (bytes ((limitedWrite d.message.chunks p.max_size).1
                ++ [" TRUNCATED"])))).chunks ++ ["\n"]) := by
        rw [append_of_ok_true s d p _ hda, take_if_limit_exceeded_output]
        rw [List.append_assoc]
      refine ⟨⟨_, hout⟩, ?_, ?_, ?_⟩
      · rw [hout, outLen_append]
        omega
      · intro e he
        rw [hda] at he
        exact Except.noConfusion he
      · intro he
        rw [hda] at he
        simp at he
  | dataFail w e =>
    have hda := do_append_of_dataFail s.clear_if_needed d p w e htr
    have hout : ((s.append d p).1).output = s.clear_if_needed.output := by
      rw [append_of_error s d p _ e hda]
    refine ⟨⟨[], by rw [hout, List.append_nil]⟩, le_of_eq (by rw [hout]), ?_, ?_⟩
    · intro e2 he
      exact hout
    · intro he
      rw [hda] at he
      simp at he

/-- C5 (witness): a structurally failing record leaves the buffer of a serializer
holding one line exactly as it was. -/
theorem C5_buffer_rollback_witness :
    (sBuf.clear_if_needed.do_append dBad {}).2 = Except.error "key must be a string" ∧
    ((sBuf.append dBad {}).1).output = sBuf.clear_if_needed.output :=
  ⟨by rfl, (C5_buffer_rollback sBuf dBad {}).2.2.1 "key must be a string" (by rfl)⟩


/-- C6 (counterexample): with `on_failure_log = none` (and `on_overflow_log = warn`),
an overflowing record under Truncate is retried successfully — `appended` becomes 1 —
yet the overflow counter does NOT increment (the map stays empty), because the code
gates `add_overflow` on `on_failure_log`; so the claim's unconditional "the overflow
counter increments by 1" fails at this input. -/
theorem C6_counterexample :
    (callReport (sFresh.append dBig
      { max_size := 10, on_overflow := OnOverflow.Truncate,
        on_failure_log := none, on_overflow_log := some Level.warn })).appended = 1 ∧
    (callReport (sFresh.append dBig
      { max_size := 10, on_overflow := OnOverflow.Truncate,
        on_failure_log := none, on_overflow_log := some Level.warn })).overflow = [] := by
  decide

/-- C6 (amended): under Truncate, when the direct encode hits the byte budget, the
substituted payload text ends in the literal `" TRUNCATED"`, the retry is the full
unbudgeted encode of the substituted record (it always succeeds: no structural error
is possible with a string payload), the whole substituted line plus terminator is
appended, `appended` is incremented by 1, and the overflow-(protocol, name,
truncated=true) counter increments by 1 provided the severity the code resolves (from
`on_failure_log`, see C1) is not none. -/
theorem C6_amended (s : Serializer) (d : Dump) (p : DumpParams)
    (hpol : p.on_overflow = OnOverflow.Truncate)
    (hov : s.clear_if_needed.direct_overflows d p = true) :
    (∃ t, bytes ((limitedWrite d.message.chunks p.max_size).1 ++ [" TRUNCATED"]) =
      t ++ " TRUNCATED") ∧
    (compactDumpStream d s.clear_if_needed.cls s.clear_if_needed.node_no
      (some (bytes ((limitedWrite d.message.chunks p.max_size).1
        ++ [" TRUNCATED"])))).err = none ∧
    ((s.append d p).1).output =
      s.clear_if_needed.output ++
        (compactDumpStream d s.clear_if_needed.cls s.clear_if_needed.node_no
          (some (bytes ((limitedWrite d.message.chunks p.max_size).1
            ++ [" TRUNCATED"])))).chunks ++ ["\n"] ∧
    callReport (s.append d p) =
      { s.report.add_overflow d true p with
          appended := (s.report.add_overflow d true p).appended + 1 } ∧
    (callReport (s.append d p)).appended = s.report.appended + 1 ∧
    (∀ lvl, p.on_failure_log = some lvl →
      overflowCount (callReport (s.append d p)) (d.message_protocol, d.message_name, true) =
        overflowCount s.report (d.message_protocol, d.message_name, true) + 1) := by
  obtain ⟨w, htr⟩ := direct_overflows_elim _ d p hov
  have hda := do_append_of_truncate s.clear_if_needed d p w htr hpol
  have hcall : callReport (s.append d p) =
      { s.report.add_overflow d true p with
          appended := (s.report.add_overflow d true p).appended + 1 } := by
    rw [append_of_ok_true s d p _ hda, callReport_take_if_limit_exceeded]
    rw [clear_if_needed_report]
  refine ⟨⟨bytes (limitedWrite d.message.chunks p.max_size).1, bytes_append_single _ _⟩,
    compactDumpStream_subst_err_none _ _ _ _, ?_, hcall, ?_, ?_⟩
  · rw [append_of_ok_true s d p _ hda, take_if_limit_exceeded_output]
  · rw [hcall]
    show (s.report.add_overflow d true p).appended + 1 = _
    rw [add_overflow_appended]
  · intro lvl hlvl
    rw [hcall]
    show overflowCount (s.report.add_overflow d true p)
      (d.message_protocol, d.message_name, true) = _
    rw [add_overflow_count s.report d true p lvl hlvl]

/-- C6 (witness): the amended theorem at a concrete overflowing record under
Truncate with the default (warn) severities. -/
theorem C6_amended_witness :
    ({ max_size := 10, on_overflow := OnOverflow.Truncate } : DumpParams).on_overflow =
      OnOverflow.Truncate ∧
    sFresh.clear_if_needed.direct_overflows dBig
      { max_size := 10, on_overflow := OnOverflow.Truncate } = true ∧
    (∃ t, bytes ((limitedWrite dBig.message.chunks
      ({ max_size := 10, on_overflow := OnOverflow.Truncate } : DumpParams).max_size).1
        ++ [" TRUNCATED"]) = t ++ " TRUNCATED") ∧
    (callReport (sFresh.append dBig
      { max_size := 10, on_overflow := OnOverflow.Truncate })).appended =
        sFresh.report.appended + 1 ∧
    overflowCount (callReport (sFresh.append dBig
        { max_size := 10, on_overflow := OnOverflow.Truncate }))
        (dBig.message_protocol, dBig.message_name, true) =
      overflowCount sFresh.report (dBig.message_protocol, dBig.message_name, true) + 1 := by
  refine ⟨rfl, by decide, ?_, ?_, ?_⟩
  · exact (C6_amended sFresh dBig _ rfl (by decide)).1
  · exact (C6_amended sFresh dBig _ rfl (by decide)).2.2.2.2.1
  · exact (C6_amended sFresh dBig _ rfl (by decide)).2.2.2.2.2 Level.warn rfl

/-- C7 (counterexample): with `on_failure_log = none` (and `on_overflow_log = warn`),
an overflowing record under Skip is dropped with no chunk, but the overflow counter
does NOT increment (the code gates `add_overflow` on `on_failure_log`), so the
claim's "increments by exactly 1 per occurrence" fails at this input. -/
theorem C7_counterexample :
    (sFresh.append dBig
      { max_size := 5, on_failure_log := none, on_overflow_log := some Level.warn }).2 =
        none ∧
    ((sFresh.append dBig
      { max_size := 5, on_failure_log := none,
        on_overflow_log := some Level.warn }).1).report.overflow = [] ∧
    ((sFresh.append dBig
      { max_size := 5, on_failure_log := none,
        on_overflow_log := some Level.warn }).1).report.appended = 0 := by
  decide

/-- C7 (amended): under Skip an overflowing record is never appended — the call
returns no chunk, the buffer is unchanged, `appended` and the failure map are
untouched — and the overflow-(protocol, name, truncated=false) counter increments by
exactly 1 provided the severity the code resolves (from `on_failure_log`, see C1) is
not none; with that severity none the report is entirely unchanged. -/
theorem C7_amended (s : Serializer) (d : Dump) (p : DumpParams)
    (hpol : p.on_overflow = OnOverflow.Skip)
    (hov : s.clear_if_needed.direct_overflows d p = true) :
    (s.append d p).2 = none ∧
    ((s.append d p).1).output = s.clear_if_needed.output ∧
    ((s.append d p).1).report.appended = s.report.appended ∧
    ((s.append d p).1).report.failed = s.report.failed ∧
    (∀ lvl, p.on_failure_log = some lvl →
      overflowCount ((s.append d p).1).report (d.message_protocol, d.message_name, false) =
        overflowCount s.report (d.message_protocol, d.message_name, false) + 1) ∧
    (p.on_failure_log = none → ((s.append d p).1).report = s.report) := by
  obtain ⟨w, htr⟩ := direct_overflows_elim _ d p hov
  have hda := do_append_of_skip s.clear_if_needed d p w htr hpol
  have happ := append_of_ok_false s d p _ hda
  rw [happ]
  refine ⟨rfl, rfl, ?_, ?_, ?_, ?_⟩
  · show (s.clear_if_needed.report.add_overflow d false p).appended = _
    rw [add_overflow_appended, clear_if_needed_report]
  · show (s.clear_if_needed.report.add_overflow d false p).failed = _
    rw [add_overflow_failed, clear_if_needed_report]
  · intro lvl hlvl
    show overflowCount (s.clear_if_needed.report.add_overflow d false p) _ = _
    rw [clear_if_needed_report, add_overflow_count s.report d false p lvl hlvl]
  · intro hnone
    show s.clear_if_needed.report.add_overflow d false p = _
    rw [add_overflow_of_none _ _ _ _ hnone, clear_if_needed_report]

/-- C7 (witness): the amended theorem at a concrete overflowing record under Skip
with the default (warn) severities. -/
theorem C7_amended_witness :
    ({ max_size := 5 } : DumpParams).on_overflow = OnOverflow.Skip ∧
    sFresh.clear_if_needed.direct_overflows dBig { max_size := 5 } = true ∧
    (sFresh.append dBig { max_size := 5 }).2 = none ∧
    overflowCount ((sFresh.append dBig { max_size := 5 }).1).report
        (dBig.message_protocol, dBig.message_name, false) =
      overflowCount sFresh.report (dBig.message_protocol, dBig.message_name, false) + 1 := by
  refine ⟨rfl, by decide, ?_, ?_⟩
  · exact (C7_amended sFresh dBig _ rfl (by decide)).1
  · exact (C7_amended sFresh dBig _ rfl (by decide)).2.2.2.2.1 Level.warn rfl


/-- C2 (counterexample): with chunk size 1024 and the 101-byte line (terminator
included), the 11th call — the one that crosses the threshold — returns a drained
report with `appended = 11`, not 10: the 11th line is appended before the drain, so
the chunk holds 11 lines. -/
theorem C2_counterexample :
    (callReport ((appendTimes dSmall {} 10 sFresh).append dSmall {})).appended = 11 ∧
    (callReport ((appendTimes dSmall {} 10 sFresh).append dSmall {})).appended ≠ 10 := by
  decide

/-- C2 (amended): with chunk size 1024 and a record whose encoded line including the
terminator is exactly 101 bytes, the first 10 `append` calls with default params
return no chunk, and the 11th call returns the chunk of exactly those 11 lines with
the drained report's `appended = 11` and empty failure/overflow maps. -/
theorem C2_amended :
    bytes (compactDumpStream dSmall sFresh.cls sFresh.node_no none).chunks =
      lineSmall ∧
    (lineSmall ++ "\n").utf8ByteSize = 101 ∧
    (∀ k : Fin 10, ((appendTimes dSmall {} k.val sFresh).append dSmall {}).2 = none) ∧
    ((appendTimes dSmall {} 10 sFresh).append dSmall {}).2 =
      some (repeatString 11 (lineSmall ++ "\n"),
        { appended := 11, failed := [], overflow := [] }) := by
  refine ⟨by decide, by decide, by decide, by decide⟩

end ElfoDumper
